import Mathlib

/-!
# Verification of `src/streamlit_app.py`

A shallow embedding of the pure logic of the Streamlit drug-dosage viewer:
the ISO-8601 duration humanizer, the tag splitter, the result-file listing
with its single-survivor filter, the scalar-line renderer, the PDF section
locator, the page-count reader, the page renderer, and the pagination clamp.

External collaborators (the `pdftotext` / `pdfinfo` subprocesses, the
`pdf2image` rasterizer, the filesystem listing) are modelled as explicit
inputs: an `Option`/`Except` value stands for "output on success, exception
on failure", and a directory listing is passed in as a list of names.

Python string primitives used by the code (`str.strip`, `str.lower`,
`str.split`, `str.splitlines`, `int(...)`, f-string formatting of an
integer, regular-expression matching for the two concrete patterns that
occur) are modelled character-by-character over `List Char`.  `str.lower`
and the word-character class of `re` are modelled over the ASCII and
Cyrillic ranges, which covers every string the application handles.
-/

namespace StreamlitApp

/-! ## Python string primitives -/

/-- Whitespace recognised by Python's `str.strip` (ASCII subset). -/
def pyIsSpace (c : Char) : Bool :=
  c = ' ' || c = '\t' || c = '\n' || c = '\x0d' || c = '\x0c' || c = '\x0b'

/-- `str.strip()`: drop leading and trailing whitespace. -/
def stripChars (l : List Char) : List Char :=
  ((l.dropWhile pyIsSpace).reverse.dropWhile pyIsSpace).reverse

/-- `str.strip()` on a `String`. -/
def pyStrip (s : String) : String := ⟨stripChars s.data⟩

/-- Case-folding table of Python's `str.lower`, restricted to the ASCII and
Cyrillic letters (the only scripts the application's data uses). -/
def lowerPairs : List (Char × Char) :=
  [('A', 'a'), ('B', 'b'), ('C', 'c'), ('D', 'd'), ('E', 'e'), ('F', 'f'),
   ('G', 'g'), ('H', 'h'), ('I', 'i'), ('J', 'j'), ('K', 'k'), ('L', 'l'),
   ('M', 'm'), ('N', 'n'), ('O', 'o'), ('P', 'p'), ('Q', 'q'), ('R', 'r'),
   ('S', 's'), ('T', 't'), ('U', 'u'), ('V', 'v'), ('W', 'w'), ('X', 'x'),
   ('Y', 'y'), ('Z', 'z'), ('Ё', 'ё'), ('А', 'а'), ('Б', 'б'), ('В', 'в'),
   ('Г', 'г'), ('Д', 'д'), ('Е', 'е'), ('Ж', 'ж'), ('З', 'з'), ('И', 'и'),
   ('Й', 'й'), ('К', 'к'), ('Л', 'л'), ('М', 'м'), ('Н', 'н'), ('О', 'о'),
   ('П', 'п'), ('Р', 'р'), ('С', 'с'), ('Т', 'т'), ('У', 'у'), ('Ф', 'ф'),
   ('Х', 'х'), ('Ц', 'ц'), ('Ч', 'ч'), ('Ш', 'ш'), ('Щ', 'щ'), ('Ъ', 'ъ'),
   ('Ы', 'ы'), ('Ь', 'ь'), ('Э', 'э'), ('Ю', 'ю'), ('Я', 'я')]

/-- One character of `str.lower`. -/
def lowerChar (c : Char) : Char :=
  ((lowerPairs.find? (fun p => p.1 = c)).map Prod.snd).getD c

/-- `str.lower()` over a character list. -/
def lowerStr (l : List Char) : List Char := l.map lowerChar

/-- `str.split(sep)` for a one-character separator: splits at every
occurrence, keeping empty segments. -/
def splitSep (sep : Char) : List Char → List (List Char)
  | [] => [[]]
  | c :: cs =>
    match splitSep sep cs with
    | [] => [[]]
    | h :: t => if c = sep then [] :: h :: t else (c :: h) :: t

/-- Helper for `str.splitlines`: accumulates the current line (reversed). -/
def pySplitlinesGo (cur : List Char) : List Char → List (List Char)
  | [] => [cur.reverse]
  | '\x0d' :: '\n' :: [] => [cur.reverse]
  | '\x0d' :: '\n' :: c :: rest => cur.reverse :: pySplitlinesGo [] (c :: rest)
  | '\n' :: [] => [cur.reverse]
  | '\n' :: c :: rest => cur.reverse :: pySplitlinesGo [] (c :: rest)
  | '\x0d' :: [] => [cur.reverse]
  | '\x0d' :: c :: rest => cur.reverse :: pySplitlinesGo [] (c :: rest)
  | c :: rest => pySplitlinesGo (c :: cur) rest

/-- `str.splitlines()` for `\n`, `\r\n` and `\r` boundaries: a trailing line
break produces no final empty line, and the empty string has no lines. -/
def pySplitlines (l : List Char) : List (List Char) :=
  match l with
  | [] => []
  | c :: rest => pySplitlinesGo [] (c :: rest)

/-- The characters after the first occurrence of `sep`, or `none` when `sep`
does not occur (`s.split(sep, 1)[1]`, where indexing a one-element list
raises). -/
def afterFirstSep (sep : Char) : List Char → Option (List Char)
  | [] => none
  | c :: cs => if c = sep then some cs else afterFirstSep sep cs

/-- Numeric value of a nonempty ASCII digit string. -/
def natOfDigits (l : List Char) : Nat :=
  l.foldl (fun acc c => acc * 10 + (c.toNat - 48)) 0

/-- Python `int(...)` on an already-stripped string: an optional sign
followed by at least one ASCII digit; anything else raises (`none`). -/
def parseInt (l : List Char) : Option Int :=
  match l with
  | [] => none
  | '-' :: ds => if ds ≠ [] && ds.all Char.isDigit then some (-(natOfDigits ds : Int)) else none
  | '+' :: ds => if ds ≠ [] && ds.all Char.isDigit then some ((natOfDigits ds : Int)) else none
  | ds => if ds.all Char.isDigit then some ((natOfDigits ds : Int)) else none

/-- Decimal digits of a natural number, fuelled to keep the recursion
structural; `natRepr` supplies enough fuel. -/
def natDigitsAux : Nat → Nat → List Char
  | 0, _ => []
  | fuel + 1, n =>
    if n < 10 then [Char.ofNat (48 + n)]
    else natDigitsAux fuel (n / 10) ++ [Char.ofNat (48 + n % 10)]

/-- Decimal representation of a natural number, as produced by an f-string
(`f"{n}"`). -/
def natRepr (n : Nat) : List Char := natDigitsAux (n + 1) n

/-- `" ".join(parts)` over character lists. -/
def joinSpace : List (List Char) → List Char
  | [] => []
  | [p] => p
  | p :: q :: rest => p ++ ' ' :: joinSpace (q :: rest)

/-! ## `humanize_iso_duration` (src/streamlit_app.py lines 51-68)

`re.fullmatch(r"P(?:(\d+)Y)?(?:(\d+)M)?(?:(\d+)W)?(?:(\d+)D)?", value.strip())`
is an anchored match of a literal `P` followed by four optional
digits-plus-unit-letter groups in the fixed order Y, M, W, D.  Because a
digit run can never contain the unit letter, the regex is equivalent to the
deterministic parser below: each group greedily takes a digit run and
consumes it only when the expected unit letter follows. -/

/-- Parse one optional `(?:(\d+)U)?` group: the captured count (if the group
participates in the match) and the remaining input. -/
def parseDurGroup (unit : Char) (l : List Char) : Option Nat × List Char :=
  let ds := l.takeWhile Char.isDigit
  let rest := l.dropWhile Char.isDigit
  if ds.isEmpty then (none, l)
  else
    match rest with
    | [] => (none, l)
    | c :: rest2 => if c = unit then (some (natOfDigits ds), rest2) else (none, l)

/-- The four captured groups of the duration regex on an (already stripped)
input, or `none` when the full match fails. -/
def matchDurationGroups (l : List Char) : Option (Option Nat × Option Nat × Option Nat × Option Nat) :=
  match l with
  | [] => none
  | c :: rest =>
    if c = 'P' then
      let (y, r1) := parseDurGroup 'Y' rest
      let (mo, r2) := parseDurGroup 'M' r1
      let (w, r3) := parseDurGroup 'W' r2
      let (d, r4) := parseDurGroup 'D' r3
      if r4.isEmpty then some (y, mo, w, d) else none
    else none

/-- The localized unit abbreviations, in the fixed output order. -/
def durUnitSuffixes : List (List Char) :=
  [" г.".data, " мес.".data, " нед.".data, " дн.".data]

/-- The `parts` list built by `humanize_iso_duration`: one
`f"{count} <abbrev>"` entry per nonzero unit, in the order years, months,
weeks, days. -/
def durationParts (y mo w d : Nat) : List (List Char) :=
  (if y ≠ 0 then [natRepr y ++ " г.".data] else []) ++
  (if mo ≠ 0 then [natRepr mo ++ " мес.".data] else []) ++
  (if w ≠ 0 then [natRepr w ++ " нед.".data] else []) ++
  (if d ≠ 0 then [natRepr d ++ " дн.".data] else [])

/-- `humanize_iso_duration` (lines 51-68). -/
def humanize_iso_duration (value : String) : String :=
  match matchDurationGroups (stripChars value.data) with
  | none => value
  | some (y, mo, w, d) =>
    let parts := durationParts (y.getD 0) (mo.getD 0) (w.getD 0) (d.getD 0)
    if parts.isEmpty then value else ⟨joinSpace parts⟩

/-! ## Labels and value humanization (lines 18-48, 71-77, 101-102) -/

/-- `KEY_LABELS_RU` (lines 18-48). -/
def KEY_LABELS_RU : List (String × String) :=
  [("indications", "Показания"),
   ("dosage", "Схемы дозирования"),
   ("tags", "Теги"),
   ("indication", "Схема"),
   ("startDosage", "Начальная доза"),
   ("dose", "Доза"),
   ("unit", "Единица"),
   ("interval", "Интервал"),
   ("intervalUnit", "Единица интервала"),
   ("intakeCount", "Кратность приема"),
   ("daily_dose", "Суточная доза"),
   ("courseDurationMin", "Минимальная длительность курса"),
   ("courseDurationMax", "Максимальная длительность курса"),
   ("courseDuration", "Длительность курса"),
   ("loading_dose", "Нагрузочная доза"),
   ("courseMaxF", "Ограничение курса (формула)"),
   ("expr", "Формула"),
   ("vars", "Переменные"),
   ("schemaDescription", "Описание схемы"),
   ("step1", "Шаг 1"),
   ("step2", "Шаг 2"),
   ("step3", "Шаг 3"),
   ("specialPatientGroups", "Особые группы пациентов"),
   ("icd10_code", "Код МКБ-10"),
   ("disease", "Состояние/группа"),
   ("administration", "Способ применения"),
   ("time", "Время приема"),
   ("food", "Связь с приемом пищи"),
   ("form", "Лекарственная форма")]

/-- `label_ru` (lines 101-102): `KEY_LABELS_RU.get(key, key)`. -/
def label_ru (key : String) : String :=
  ((KEY_LABELS_RU.find? (fun p => p.1 = key)).map Prod.snd).getD key

/-- A Python scalar value as it reaches `render_scalar_line`: `None`, a
string, an int, or a bool. -/
inductive PyScalar where
  | null : PyScalar
  | str : String → PyScalar
  | int : Int → PyScalar
  | bool : Bool → PyScalar
deriving DecidableEq

/-- Python `str(value)` for the scalars above (never applied to `None` by
the code paths modelled here). -/
def pyStr : PyScalar → String
  | .null => "None"
  | .str s => s
  | .int n => toString n
  | .bool b => if b then "True" else "False"

/-- `intervalUnit` code table (line 75). -/
def intervalUnitMapping : List (String × String) :=
  [("DAY", "день"), ("WEEK", "неделя"), ("MONTH", "месяц"), ("YEAR", "год")]

/-- `humanize_value` (lines 71-77). -/
def humanize_value (key : String) (value : PyScalar) : PyScalar :=
  match value with
  | .str s =>
    if key = "courseDurationMin" || key = "courseDurationMax" || key = "courseDuration" then
      .str (humanize_iso_duration s)
    else if key = "intervalUnit" then
      match intervalUnitMapping.find? (fun p => p.1 = s) with
      | some p => .str p.2
      | none => value
    else value
  | _ =>
    if key = "intervalUnit" then
      match intervalUnitMapping.find? (fun p => p.1 = pyStr value) with
      | some p => .str p.2
      | none => value
    else value

/-! ## `render_tags` and `render_scalar_line` (lines 105-139)

`st.markdown` emissions are modelled as structured output values: a chip
row (label plus the list of chip texts) or a `label: value` line. -/

/-- `[p.strip() for p in raw_tags.split(";") if p.strip()]` (line 128). -/
def tagParts (rawTags : String) : List String :=
  (splitSep ';' rawTags.data).filterMap
    (fun p => let q := stripChars p; if q.isEmpty then none else some ⟨q⟩)

/-- One rendered output of the scalar/tag renderers. -/
inductive Emitted where
  | scalarLine (labelText valueText : String) : Emitted
  | tagChips (labelText : String) (chips : List String) : Emitted
deriving DecidableEq

/-- `render_tags` (lines 127-139): nothing when every segment strips to
empty, else one chip row labelled with the localized tags label. -/
def render_tags (rawTags : String) : Option Emitted :=
  let parts := tagParts rawTags
  if parts.isEmpty then none else some (.tagChips (label_ru "tags") parts)

/-- `render_scalar_line` (lines 105-124): `None` and blank strings are
suppressed; the `"tags"` key diverts to `render_tags`; everything else
becomes a `label: value` line of the humanized value. -/
def render_scalar_line (key : String) (value : PyScalar) : Option Emitted :=
  match value with
  | .null => none
  | .str s =>
    if (stripChars s.data).isEmpty then none
    else if key = "tags" then render_tags (pyStr (.str s))
    else some (.scalarLine (label_ru key) (pyStr (humanize_value key (.str s))))
  | v =>
    if key = "tags" then render_tags (pyStr v)
    else some (.scalarLine (label_ru key) (pyStr (humanize_value key v)))

/-! ## `list_result_files` (lines 80-93)

The directory listing (`RESULTS_DIR.glob("*.json")`) is an external
collaborator; its result is the `names` parameter.  `sorted` on Python
strings is the stable sort under code-point lexicographic order, modelled
by insertion sort under the same order. -/

/-- Code-point lexicographic strict order on character lists (Python
string `<`). -/
def charListLt : List Char → List Char → Bool
  | [], [] => false
  | [], _ :: _ => true
  | _ :: _, [] => false
  | a :: as_, b :: bs => if a < b then true else if a = b then charListLt as_ bs else false

/-- Python string `<`. -/
def strLt (s t : String) : Bool := charListLt s.data t.data

/-- Stable insertion into a sorted list: an element inserted from the left
goes before existing equal elements. -/
def insertStr (a : String) : List String → List String
  | [] => [a]
  | b :: bs => if strLt b a then b :: insertStr a bs else a :: b :: bs

/-- `sorted(...)` on strings: stable, code-point lexicographic. -/
def sortStrs : List String → List String
  | [] => []
  | a :: rest => insertStr a (sortStrs rest)

/-- `pat` occurs as a contiguous run inside `l`. -/
def containsSeq (pat : List Char) : List Char → Bool
  | [] => pat.isEmpty
  | c :: t => pat.isPrefixOf (c :: t) || containsSeq pat t

/-- `"преднизолон" in name.lower()` (line 88). -/
def hasPrednisolone (name : String) : Bool :=
  containsSeq "преднизолон".data (lowerStr name.data)

/-- The loop of lines 86-92: keep at most one name containing the protected
substring (the flag records whether one was already kept). -/
def dedupPrednisoloneGo (kept : Bool) : List String → List String
  | [] => []
  | name :: rest =>
    if hasPrednisolone name then
      if kept then dedupPrednisoloneGo true rest
      else name :: dedupPrednisoloneGo true rest
    else name :: dedupPrednisoloneGo kept rest

/-- The filtering pass of `list_result_files` (lines 85-92). -/
def dedupPrednisolone (files : List String) : List String :=
  dedupPrednisoloneGo false files

/-- `startswith("_")`. -/
def startsWithUnderscore (name : String) : Bool := "_".data.isPrefixOf name.data

/-- `list_result_files` (lines 80-93), with the glob result as input. -/
def list_result_files (names : List String) : List String :=
  dedupPrednisolone (sortStrs (names.filter (fun n => !startsWithUnderscore n)))

/-! ## `find_section_page` (lines 224-240)

The `pdftotext` subprocess is the text-extraction collaborator: `none`
models any exception (missing binary, corrupt file, non-zero exit via
`check=True`), `some out` models its standard output.  The compiled marker
is the literal pattern `\b4[.,]1\b` with `re.IGNORECASE` — it is built from
the string literal `"4.1"` in the regex, not from the `section` argument,
which the function body never reads.

`\w` of Python's `re` (which defines `\b`) is modelled over the ASCII and
Cyrillic ranges: letters, digits and underscore. -/

/-- Word characters of `re`'s `\w` (ASCII alphanumerics, underscore, and
the Cyrillic block). -/
def isWordChar (c : Char) : Bool :=
  c.isAlphanum || c = '_' || (0x400 ≤ c.toNat && c.toNat ≤ 0x4FF)

/-- The marker `\b4[.,]1\b` matches at position `i` of `t`.  (The
`IGNORECASE` flag is vacuous: the pattern contains no cased characters.) -/
def marker41At (t : List Char) (i : Nat) : Bool :=
  (t.getD i ' ' = '4' && i < t.length) &&
  (t.getD (i + 1) ' ' = '.' || t.getD (i + 1) ' ' = ',') && (i + 1 < t.length) &&
  (t.getD (i + 2) ' ' = '1' && i + 2 < t.length) &&
  (i = 0 || !isWordChar (t.getD (i - 1) ' ')) &&
  (t.length ≤ i + 3 || !isWordChar (t.getD (i + 3) ' '))

/-- `marker.search(text)`: the marker matches somewhere in `t`. -/
def marker41Matches (t : List Char) : Bool :=
  (List.range t.length).any (marker41At t)

/-- The page loop of lines 235-237: 1-based index of the first matching
page, else 1. -/
def findFirstMatchingPage (pred : List Char → Bool) : List (List Char) → Nat → Nat
  | [], _ => 1
  | text :: rest, idx => if pred text then idx else findFirstMatchingPage pred rest (idx + 1)

/-- `find_section_page` (lines 224-240).  `stdout` is the collaborator
result (`none` = exception); `sectionLabel` is the `section` parameter,
which the body never uses. -/
def find_section_page (stdout : Option (List Char)) (sectionLabel : String) : Nat :=
  match stdout with
  | none => 1
  | some out => findFirstMatchingPage marker41Matches (splitSep '\x0c' out) 1

/-- Modelled from the claim's words, for comparison with the source: a
pattern built from the given label — case-insensitive, word-boundary
delimited, with `.` or `,` accepted wherever the label has `.`. -/
def labelCharMatches (lc tc : Char) : Bool :=
  if lc = '.' then tc = '.' || tc = ',' else lowerChar tc = lowerChar lc

/-- The label pattern matches at position `i` of `t` (word boundaries on
both sides). -/
def labelPatternAt (label : List Char) (t : List Char) (i : Nat) : Bool :=
  (i + label.length ≤ t.length) &&
  ((List.range label.length).all (fun j => labelCharMatches (label.getD j ' ') (t.getD (i + j) ' '))) &&
  (i = 0 || !isWordChar (t.getD (i - 1) ' ')) &&
  (t.length ≤ i + label.length || !isWordChar (t.getD (i + label.length) ' '))

/-- The label pattern matches somewhere in `t`. -/
def labelPatternMatches (label : String) (t : List Char) : Bool :=
  (List.range t.length).any (labelPatternAt label.data t)

/-- The section locator as the claim describes it: the pattern is built
from the given label argument. -/
def findSectionPageClaim (stdout : Option (List Char)) (sectionLabel : String) : Nat :=
  match stdout with
  | none => 1
  | some out => findFirstMatchingPage (labelPatternMatches sectionLabel) (splitSep '\x0c' out) 1

/-! ## `get_pdf_page_count` (lines 255-269)

The `pdfinfo` subprocess is the page-count collaborator: `none` models any
exception, `some out` its standard output. -/

/-- `get_pdf_page_count` (lines 255-269): find the first line whose
lowercasing starts with `"pages:"`, parse the integer after the first `:`
and force it to at least 1; any failure yields 1. -/
def get_pdf_page_count (stdout : Option (List Char)) : Int :=
  match stdout with
  | none => 1
  | some out =>
    match (pySplitlines out).find? (fun line => "pages:".data.isPrefixOf (lowerStr line)) with
    | none => 1
    | some line =>
      match afterFirstSep ':' line with
      | none => 1
      | some rest =>
        match parseInt (stripChars rest) with
        | none => 1
        | some n => max 1 n

/-! ## `render_pdf_page_as_image` and the display step of `render_pdf`
(lines 243-252, 302-317)

`pdf2image.convert_from_path` is the rasterization collaborator: a
function from the request to `Except Unit (List α)`, where `.error` models
a raised exception and `α` is the image type. -/

/-- The keyword arguments `render_pdf_page_as_image` passes to
`convert_from_path` (lines 245-251). -/
structure ConvertRequest where
  pdfPath : String
  dpi : Nat
  firstPage : Nat
  lastPage : Nat
  fmt : String
deriving DecidableEq

/-- The request built at lines 245-251: fixed DPI 120, single page, PNG. -/
def convertRequestFor (pdfPath : String) (page : Nat) : ConvertRequest :=
  ⟨pdfPath, 120, page, page, "png"⟩

/-- `render_pdf_page_as_image` (lines 243-252): `images[0] if images else
None`; an exception from the collaborator propagates to the caller. -/
def render_pdf_page_as_image {α : Type} (convert : ConvertRequest → Except Unit (List α))
    (pdfPath : String) (page : Nat) : Except Unit (Option α) :=
  match convert (convertRequestFor pdfPath page) with
  | .error e => .error e
  | .ok images => .ok images.head?

/-- Outcome of the display step of `render_pdf`. -/
inductive PdfView (α : Type) where
  | shownPage (img : α) (page : Nat) : PdfView α
  | fallbackLink : PdfView α
deriving DecidableEq

/-- Lines 302-317 of `render_pdf`: try to render the current page; show the
image when one is produced, otherwise (no image, or any exception) show the
warning and the fallback link.  Total: no error escapes. -/
def displayPdfPage {α : Type} (convert : ConvertRequest → Except Unit (List α))
    (pdfPath : String) (page : Nat) : PdfView α :=
  match render_pdf_page_as_image convert pdfPath page with
  | .error _ => .fallbackLink
  | .ok none => .fallbackLink
  | .ok (some img) => .shownPage img page

/-! ## Pagination (lines 272-284, 292-298)

Session state is modelled as the explicit page value; the two buttons of
one rerun are the pair of booleans. -/

/-- The final clamp of line 284 (and line 294):
`min(max(int(page), 1), total_pages)`. -/
def clampPage (totalPages : Nat) (page : Int) : Int :=
  min (max page 1) (totalPages : Int)

/-- `render_page_control` (lines 272-284): retreat when the back button was
clicked, advance when the forward button was clicked, then re-apply the
clamp and store. -/
def render_page_control (totalPages : Nat) (page : Int) (prevClicked nextClicked : Bool) : Int :=
  let p1 := if prevClicked then max 1 (page - 1) else page
  let p2 := if nextClicked then min (totalPages : Int) (p1 + 1) else p1
  clampPage totalPages p2

/-- The initial page of `render_pdf` (lines 292-298): the Section Locator's
result clamped into range. -/
def initPage (totalPages : Nat) (stdout : Option (List Char)) (sectionLabel : String) : Int :=
  clampPage totalPages (find_section_page stdout sectionLabel : Int)

/-- Every stored page value along a sequence of reruns, the starting value
included. -/
def pageStates (totalPages : Nat) (start : Int) : List (Bool × Bool) → List Int
  | [] => [start]
  | act :: rest =>
    start :: pageStates totalPages (render_page_control totalPages start act.1 act.2) rest

/-- Modelled from the claim's words, for comparison with the source
humanizer: "a string containing exactly the units whose count is present,
in the fixed order years, months, weeks, days, each count suffixed with its
localized abbreviation" — one part per captured group, zero counts
included. -/
def humanizeC4Spec (value : String) : String :=
  match matchDurationGroups (stripChars value.data) with
  | none => value
  | some (y, mo, w, d) =>
    ⟨joinSpace (([y.map (fun n => natRepr n ++ " г.".data),
                 mo.map (fun n => natRepr n ++ " мес.".data),
                 w.map (fun n => natRepr n ++ " нед.".data),
                 d.map (fun n => natRepr n ++ " дн.".data)]).filterMap id)⟩

/-- The nonzero units of a duration match, in the fixed output order, as
one table: the claim-side phrasing of "the units present and nonzero, each
count suffixed with its localized abbreviation". -/
def nonzeroUnitParts (y mo w d : Nat) : List (List Char) :=
  ([(y, " г.".data), (mo, " мес.".data), (w, " нед.".data), (d, " дн.".data)]).filterMap
    (fun p => if p.1 ≠ 0 then some (natRepr p.1 ++ p.2) else none)

/-! # Theorems -/

/-! ## Pagination bounds (C1) -/

theorem clampPage_bounds (totalPages : Nat) (h : 1 ≤ totalPages) (p : Int) :
    1 ≤ clampPage totalPages p ∧ clampPage totalPages p ≤ totalPages := by
  unfold clampPage
  omega

theorem render_page_control_bounds (totalPages : Nat) (h : 1 ≤ totalPages)
    (page : Int) (prevClicked nextClicked : Bool) :
    1 ≤ render_page_control totalPages page prevClicked nextClicked ∧
      render_page_control totalPages page prevClicked nextClicked ≤ totalPages := by
  unfold render_page_control
  exact clampPage_bounds totalPages h _

theorem pageStates_bounds (totalPages : Nat) (h : 1 ≤ totalPages) :
    ∀ (acts : List (Bool × Bool)) (start : Int),
      1 ≤ start → start ≤ totalPages →
      ∀ q ∈ pageStates totalPages start acts, 1 ≤ q ∧ q ≤ totalPages := by
  intro acts
  induction acts with
  | nil =>
    intro start h1 h2 q hq
    simp only [pageStates, List.mem_singleton] at hq
    exact hq ▸ ⟨h1, h2⟩
  | cons act rest ih =>
    intro start h1 h2 q hq
    simp only [pageStates, List.mem_cons] at hq
    rcases hq with rfl | hq
    · exact ⟨h1, h2⟩
    · obtain ⟨hc1, hc2⟩ := render_page_control_bounds totalPages h start act.1 act.2
      exact ih _ hc1 hc2 q hq

/-- Claim C1: with total page count `N ≥ 1`, the page index starts at the
Section Locator's result clamped into `[1, N]`, and along every sequence of
advance/retreat reruns from every starting value, every stored page value
(the re-applied clamp included) lies in `[1, N]`. -/
theorem claim_C1 (totalPages : Nat) (hN : 1 ≤ totalPages) (p0 : Int)
    (stdout : Option (List Char)) (sectionLabel : String) (acts : List (Bool × Bool)) :
    (initPage totalPages stdout sectionLabel =
        clampPage totalPages (find_section_page stdout sectionLabel : Int) ∧
      1 ≤ initPage totalPages stdout sectionLabel ∧
      initPage totalPages stdout sectionLabel ≤ totalPages) ∧
    ∀ q ∈ pageStates totalPages (clampPage totalPages p0) acts, 1 ≤ q ∧ q ≤ totalPages := by
  obtain ⟨hi1, hi2⟩ := clampPage_bounds totalPages hN (find_section_page stdout sectionLabel : Int)
  obtain ⟨hs1, hs2⟩ := clampPage_bounds totalPages hN p0
  exact ⟨⟨rfl, hi1, hi2⟩, pageStates_bounds totalPages hN acts _ hs1 hs2⟩

theorem claim_C1_witness :
    1 ≤ initPage 3 none "4.1" ∧ initPage 3 none "4.1" ≤ 3 ∧
      (1 ≤ clampPage 3 7 ∧ clampPage 3 7 ≤ 3) :=
  ⟨(claim_C1 3 (by decide) 7 none "4.1" []).1.2.1,
   (claim_C1 3 (by decide) 7 none "4.1" []).1.2.2,
   (claim_C1 3 (by decide) 7 none "4.1" []).2 (clampPage 3 7) (by decide)⟩

/-! ## Page count is at least one (C9) -/

/-- Claim C9: `get_pdf_page_count` always returns an integer `≥ 1` — `1` on
collaborator failure, a missing or unparseable `Pages:` line, and
`max 1 count` on success — so the pagination clamp's precondition
`total_pages ≥ 1` always holds. -/
theorem claim_C9 (stdout : Option (List Char)) :
    1 ≤ get_pdf_page_count stdout ∧ get_pdf_page_count none = 1 := by
  refine ⟨?_, rfl⟩
  unfold get_pdf_page_count
  cases stdout with
  | none => norm_num
  | some out => (repeat' split) <;> omega

/-! ## Page renderer and fallback (C8) -/

/-- Claim C8: the page renderer requests a single raster of the given page
at fixed DPI 120; a collaborator exception or an empty image list yields no
image and the caller shows the fallback link, a produced image is shown —
and the display step is total, so no rendering error propagates out. -/
theorem claim_C8 {α : Type} (convert : ConvertRequest → Except Unit (List α))
    (pdfPath : String) (page : Nat) :
    ((convertRequestFor pdfPath page).dpi = 120 ∧
      (convertRequestFor pdfPath page).firstPage = page ∧
      (convertRequestFor pdfPath page).lastPage = page) ∧
    (∀ e, convert (convertRequestFor pdfPath page) = .error e →
      render_pdf_page_as_image convert pdfPath page = .error e ∧
        displayPdfPage convert pdfPath page = .fallbackLink) ∧
    (convert (convertRequestFor pdfPath page) = .ok [] →
      render_pdf_page_as_image convert pdfPath page = .ok none ∧
        displayPdfPage convert pdfPath page = .fallbackLink) ∧
    (∀ img rest, convert (convertRequestFor pdfPath page) = .ok (img :: rest) →
      displayPdfPage convert pdfPath page = .shownPage img page) ∧
    (displayPdfPage convert pdfPath page = .fallbackLink ∨
      ∃ img, displayPdfPage convert pdfPath page = .shownPage img page) := by
  refine ⟨⟨rfl, rfl, rfl⟩, ?_, ?_, ?_, ?_⟩
  · intro e he
    constructor <;> simp [render_pdf_page_as_image, displayPdfPage, he]
  · intro he
    constructor <;> simp [render_pdf_page_as_image, displayPdfPage, he]
  · intro img rest he
    simp [render_pdf_page_as_image, displayPdfPage, he]
  · unfold displayPdfPage
    rcases hr : render_pdf_page_as_image convert pdfPath page with _ | img?
    · exact Or.inl rfl
    · rcases img? with _ | img
      · exact Or.inl rfl
      · exact Or.inr ⟨img, rfl⟩

theorem claim_C8_witness :
    displayPdfPage (fun _ => Except.ok ([0] : List Nat)) "a.pdf" 2 = PdfView.shownPage 0 2 ∧
      displayPdfPage (fun _ => (Except.error () : Except Unit (List Nat))) "b.pdf" 1 =
        PdfView.fallbackLink :=
  ⟨(claim_C8 (fun _ => Except.ok ([0] : List Nat)) "a.pdf" 2).2.2.2.1 0 [] rfl,
   ((claim_C8 (fun _ => (Except.error () : Except Unit (List Nat))) "b.pdf" 1).2.1 () rfl).2⟩

/-! ## Section locator: fail-open and first match (C2) -/

theorem findFirstMatchingPage_of_none (pred : List Char → Bool) :
    ∀ (pages : List (List Char)) (k : Nat),
      (∀ t ∈ pages, pred t = false) → findFirstMatchingPage pred pages k = 1 := by
  intro pages
  induction pages with
  | nil => intro k _; rfl
  | cons t rest ih =>
    intro k hall
    have ht : pred t = false := hall t (List.mem_cons_self t rest)
    simp only [findFirstMatchingPage, ht, Bool.false_eq_true, if_false]
    exact ih (k + 1) (fun u hu => hall u (List.mem_cons_of_mem t hu))

theorem findFirstMatchingPage_of_first (pred : List Char → Bool) :
    ∀ (pages : List (List Char)) (i k : Nat), i < pages.length →
      pred (pages.getD i []) = true →
      (∀ j, j < i → pred (pages.getD j []) = false) →
      findFirstMatchingPage pred pages k = k + i := by
  intro pages
  induction pages with
  | nil => intro i k hi; simp at hi
  | cons t rest ih =>
    intro i k hi hp hprev
    cases i with
    | zero =>
      simp only [List.getD_cons_zero] at hp
      simp [findFirstMatchingPage, hp]
    | succ i' =>
      have ht : pred t = false := by
        have := hprev 0 (Nat.succ_pos i')
        simpa using this
      simp only [List.getD_cons_succ] at hp
      simp only [findFirstMatchingPage, ht, Bool.false_eq_true, if_false]
      have : findFirstMatchingPage pred rest (k + 1) = (k + 1) + i' :=
        ih i' (k + 1) (by simpa using hi) hp
          (fun j hj => by simpa using hprev (j + 1) (Nat.succ_lt_succ hj))
      omega

/-- Claim C2: the section locator returns 1 when text extraction fails
(`none`) or no page matches the marker, and otherwise the 1-based index of
the first page, in document order, whose text matches. -/
theorem claim_C2 (out : List Char) (sectionLabel : String) :
    find_section_page none sectionLabel = 1 ∧
    ((∀ t ∈ splitSep '\x0c' out, marker41Matches t = false) →
      find_section_page (some out) sectionLabel = 1) ∧
    (∀ i, i < (splitSep '\x0c' out).length →
      marker41Matches ((splitSep '\x0c' out).getD i []) = true →
      (∀ j, j < i → marker41Matches ((splitSep '\x0c' out).getD j []) = false) →
      find_section_page (some out) sectionLabel = i + 1) := by
  refine ⟨rfl, ?_, ?_⟩
  · intro hall
    exact findFirstMatchingPage_of_none marker41Matches _ 1 hall
  · intro i hi hp hprev
    have := findFirstMatchingPage_of_first marker41Matches _ i 1 hi hp hprev
    simpa [find_section_page, Nat.add_comm] using this

theorem claim_C2_witness :
    find_section_page (some "xy".data) "4.1" = 1 ∧
      find_section_page (some "first page\x0csee 4.1 here".data) "4.1" = 2 :=
  ⟨(claim_C2 "xy".data "4.1").2.1 (by decide),
   (claim_C2 "first page\x0csee 4.1 here".data "4.1").2.2 1 (by decide) (by decide)
     (fun j hj => by interval_cases j; decide)⟩

/-! ## Tag splitting (C5) -/

theorem tagParts_eq_map_filter (l : List (List Char)) :
    l.filterMap (fun p => let q := stripChars p; if q.isEmpty then none else some (⟨q⟩ : String)) =
      (l.map (fun p => (⟨stripChars p⟩ : String))).filter (fun q => q ≠ "") := by
  induction l with
  | nil => rfl
  | cons p rest ih =>
    simp only [List.isEmpty_iff] at ih ⊢
    simp only [List.filterMap_cons, List.map_cons, List.filter_cons]
    by_cases he : stripChars p = []
    · have hq2 : (⟨stripChars p⟩ : String) = "" := by rw [he]
      simp [he, hq2, ih]
    · have hq2 : (⟨stripChars p⟩ : String) ≠ "" := by
        intro h
        exact he (by simpa using congrArg String.data h)
      simp [he, hq2, ih]

/-- Claim C5: the tag renderer yields exactly the non-empty
whitespace-stripped `";"`-segments, in their original order, dropping empty
and whitespace-only segments; on `"A; B ; ;C"` this is exactly
`["A", "B", "C"]`. -/
theorem claim_C5 (rawTags : String) :
    tagParts rawTags =
      (((splitSep ';' rawTags.data).map (fun p => (⟨stripChars p⟩ : String))).filter
        (fun q => q ≠ "")) ∧
    tagParts "A; B ; ;C" = ["A", "B", "C"] ∧
    render_tags "A; B ; ;C" = some (.tagChips (label_ru "tags") ["A", "B", "C"]) := by
  refine ⟨?_, by decide, by decide⟩
  unfold tagParts
  exact tagParts_eq_map_filter (splitSep ';' rawTags.data)

/-! ## Result-file listing: single-survivor filter (C6) -/

theorem dedupPrednisoloneGo_sublist :
    ∀ (l : List String) (kept : Bool), (dedupPrednisoloneGo kept l).Sublist l := by
  intro l
  induction l with
  | nil => intro kept; simp [dedupPrednisoloneGo]
  | cons name rest ih =>
    intro kept
    by_cases h : hasPrednisolone name
    · cases kept with
      | true =>
        simp only [dedupPrednisoloneGo, h, if_true]
        exact (ih true).cons name
      | false =>
        simp only [dedupPrednisoloneGo, h, if_true, if_false]
        exact (ih true).cons₂ name
    · simp only [dedupPrednisoloneGo, h, Bool.false_eq_true, if_false]
      exact (ih kept).cons₂ name

theorem dedupPrednisoloneGo_filter_not :
    ∀ (l : List String) (kept : Bool),
      (dedupPrednisoloneGo kept l).filter (fun n => !hasPrednisolone n) =
        l.filter (fun n => !hasPrednisolone n) := by
  intro l
  induction l with
  | nil => intro kept; rfl
  | cons name rest ih =>
    intro kept
    by_cases h : hasPrednisolone name
    · cases kept with
      | true => simp [dedupPrednisoloneGo, h, List.filter_cons, ih]
      | false => simp [dedupPrednisoloneGo, h, List.filter_cons, ih]
    · simp [dedupPrednisoloneGo, h, List.filter_cons, ih]

theorem dedupPrednisoloneGo_filter_true :
    ∀ (l : List String), (dedupPrednisoloneGo true l).filter hasPrednisolone = [] := by
  intro l
  induction l with
  | nil => rfl
  | cons name rest ih =>
    by_cases h : hasPrednisolone name
    · simp [dedupPrednisoloneGo, h, List.filter_cons, ih]
    · simp [dedupPrednisoloneGo, h, List.filter_cons, ih]

theorem dedupPrednisoloneGo_filter_false :
    ∀ (l : List String),
      (dedupPrednisoloneGo false l).filter hasPrednisolone =
        (l.filter hasPrednisolone).take 1 := by
  intro l
  induction l with
  | nil => rfl
  | cons name rest ih =>
    by_cases h : hasPrednisolone name
    · simp [dedupPrednisoloneGo, h, List.filter_cons, dedupPrednisoloneGo_filter_true rest]
    · simp [dedupPrednisoloneGo, h, List.filter_cons, ih]

/-- Claim C6: the selection list is the sorted JSON listing minus reserved
`"_"` names, through a filter that keeps every name without the protected
substring, and at most one — the first in sorted order — of the names that
do contain it (case-insensitively); on a listing with two matching names
and one other name, exactly the first matching name and the other name
survive. -/
theorem claim_C6 (names : List String) :
    (list_result_files names).Sublist
      (sortStrs (names.filter (fun n => !startsWithUnderscore n))) ∧
    ((list_result_files names).filter (fun n => !hasPrednisolone n) =
      (sortStrs (names.filter (fun n => !startsWithUnderscore n))).filter
        (fun n => !hasPrednisolone n)) ∧
    ((list_result_files names).filter hasPrednisolone =
      ((sortStrs (names.filter (fun n => !startsWithUnderscore n))).filter
        hasPrednisolone).take 1) ∧
    list_result_files ["преднизолон2.json", "aqq.json", "Преднизолон1.json", "_x.json"] =
      ["aqq.json", "Преднизолон1.json"] := by
  refine ⟨?_, ?_, ?_, by decide⟩
  · exact dedupPrednisoloneGo_sublist _ false
  · exact dedupPrednisoloneGo_filter_not _ false
  · exact dedupPrednisoloneGo_filter_false _

/-! ## Section pattern: hardcoded "4.1", not the label argument (C3) -/

theorem lowerChar_eq_fix (d : Char)
    (h1 : lowerPairs.all (fun p => p.2 ≠ d) = true)
    (h2 : lowerChar d = d) (c : Char) :
    lowerChar c = d ↔ c = d := by
  constructor
  · intro h
    unfold lowerChar at h
    cases hf : lowerPairs.find? (fun p => p.1 = c) with
    | none => rw [hf] at h; simpa using h
    | some p =>
      rw [hf] at h
      simp only [Option.map_some', Option.getD_some] at h
      have hm := List.mem_of_find?_eq_some hf
      have hne := List.all_eq_true.mp h1 p hm
      simp at hne
      exact absurd h hne
  · intro h; subst h; exact h2

theorem marker41At_eq (t : List Char) (i : Nat) :
    marker41At t i = labelPatternAt "4.1".data t i := by
  have h4 : ∀ c, lowerChar c = '4' ↔ c = '4' :=
    lowerChar_eq_fix '4' (by decide) (by decide)
  have h1 : ∀ c, lowerChar c = '1' ↔ c = '1' :=
    lowerChar_eq_fix '1' (by decide) (by decide)
  have m1 : ∀ tc, labelCharMatches '4' tc = decide (tc = '4') := by
    intro tc
    rw [labelCharMatches, if_neg (by decide), show lowerChar '4' = '4' from rfl]
    exact decide_eq_decide.mpr (h4 tc)
  have m2 : ∀ tc, labelCharMatches '.' tc = (decide (tc = '.') || decide (tc = ',')) := by
    intro tc
    rw [labelCharMatches, if_pos rfl]
  have m3 : ∀ tc, labelCharMatches '1' tc = decide (tc = '1') := by
    intro tc
    rw [labelCharMatches, if_neg (by decide), show lowerChar '1' = '1' from rfl]
    exact decide_eq_decide.mpr (h1 tc)
  rw [Bool.eq_iff_iff]
  have hd : "4.1".data = ['4', '.', '1'] := rfl
  have hr : List.range 3 = [0, 1, 2] := rfl
  have ha : (0 + 1 + 1 + 1 : Nat) = 3 := rfl
  simp only [marker41At, labelPatternAt, hd, List.length_cons, List.length_nil, hr,
    List.all_cons, List.all_nil, List.getD_cons_zero, List.getD_cons_succ, m1, m2, m3, ha,
    Bool.and_eq_true, Bool.or_eq_true, decide_eq_true_eq, Bool.and_true, Nat.add_zero]
  constructor
  · rintro ⟨⟨⟨⟨⟨⟨c4, hl1⟩, hsep⟩, hl2⟩, c1, hl3⟩, hb1⟩, hb2⟩
    exact ⟨⟨⟨by omega, c4, hsep, c1⟩, hb1⟩, hb2⟩
  · rintro ⟨⟨⟨hlen, c4, hsep, c1⟩, hb1⟩, hb2⟩
    exact ⟨⟨⟨⟨⟨⟨c4, by omega⟩, hsep⟩, by omega⟩, c1, by omega⟩, hb1⟩, hb2⟩

theorem marker41Matches_eq (t : List Char) :
    marker41Matches t = labelPatternMatches "4.1" t := by
  unfold marker41Matches labelPatternMatches
  rw [funext (marker41At_eq t)]

/-- Counterexample to claim C3: the claim predicts that with section label
`"5.2"` the locator finds the page containing "5.2" (page 2 of this
two-page document); the code still matches its hardcoded "4.1" pattern and
returns 1. -/
theorem claim_C3_counterexample :
    findSectionPageClaim (some "first\x0chas 5.2 here".data) "5.2" = 2 ∧
    find_section_page (some "first\x0chas 5.2 here".data) "5.2" = 1 ∧
    find_section_page (some "first\x0chas 5.2 here".data) "5.2" ≠
      findSectionPageClaim (some "first\x0chas 5.2 here".data) "5.2" := by
  exact ⟨by decide, by decide, by decide⟩

/-- Claim C3 as amended: the page-matching pattern is the fixed
case-insensitive word-boundary pattern for the label "4.1" with "." or ","
as the decimal separator, regardless of the section label argument, which
`find_section_page` ignores: the locator coincides with the claim's
label-built locator applied to "4.1", and a page matches iff its text
contains 4.1 (or 4,1) at word boundaries. -/
theorem claim_C3_amended (stdout : Option (List Char)) (sectionLabel : String) :
    find_section_page stdout sectionLabel = findSectionPageClaim stdout "4.1" ∧
    ∀ t : List Char, marker41Matches t = labelPatternMatches "4.1" t := by
  refine ⟨?_, marker41Matches_eq⟩
  unfold find_section_page findSectionPageClaim
  cases stdout with
  | none => rfl
  | some out => rw [funext marker41Matches_eq]

/-! ## Duration humanizer (C4, C10)

The output of a successful humanization starts with a decimal digit, so it
can never re-match the duration pattern (which starts with `P`); this
drives both the idempotence proof and the amended characterization. -/

theorem natDigitsAux_head :
    ∀ (fuel n : Nat), n < fuel →
      ∃ c t, natDigitsAux fuel n = c :: t ∧ c.isDigit = true := by
  intro fuel
  induction fuel with
  | zero => intro n hn; omega
  | succ fuel ih =>
    intro n hn
    by_cases h : n < 10
    · refine ⟨Char.ofNat (48 + n), [], by simp [natDigitsAux, h], ?_⟩
      interval_cases n <;> decide
    · have hf : n / 10 < fuel := by omega
      obtain ⟨c, t, he, hd⟩ := ih (n / 10) hf
      exact ⟨c, t ++ [Char.ofNat (48 + n % 10)], by simp [natDigitsAux, h, he], hd⟩

theorem natRepr_head (n : Nat) :
    ∃ c t, natRepr n = c :: t ∧ c.isDigit = true :=
  natDigitsAux_head (n + 1) n (Nat.lt_succ_self n)

theorem durationParts_heads (y mo w d : Nat) :
    ∀ p ∈ durationParts y mo w d, ∃ c t, p = c :: t ∧ c.isDigit = true := by
  intro p hp
  have hnat : ∀ (k : Nat) (suf : List Char),
      ∃ c t, natRepr k ++ suf = c :: t ∧ c.isDigit = true := by
    intro k suf
    obtain ⟨c, t, he, hd⟩ := natRepr_head k
    exact ⟨c, t ++ suf, by rw [he]; rfl, hd⟩
  have hone : ∀ (cond : Prop) (inst : Decidable cond) (x : List Char),
      p ∈ (if cond then [x] else []) → p = x := by
    intro cond inst x hx
    split at hx
    · simpa using hx
    · simp at hx
  unfold durationParts at hp
  rcases List.mem_append.mp hp with h | h
  · rcases List.mem_append.mp h with h2 | h2
    · rcases List.mem_append.mp h2 with h3 | h3
      · rw [hone _ _ _ h3]; exact hnat y _
      · rw [hone _ _ _ h3]; exact hnat mo _
    · rw [hone _ _ _ h2]; exact hnat w _
  · rw [hone _ _ _ h]; exact hnat d _

theorem joinSpace_head (parts : List (List Char)) (hne : parts ≠ [])
    (hall : ∀ p ∈ parts, ∃ c t, p = c :: t ∧ c.isDigit = true) :
    ∃ c t, joinSpace parts = c :: t ∧ c.isDigit = true := by
  match parts with
  | [] => exact absurd rfl hne
  | [p] =>
    obtain ⟨c, t, he, hd⟩ := hall p (List.mem_singleton_self p)
    exact ⟨c, t, by simp [joinSpace, he], hd⟩
  | p :: q :: rest =>
    obtain ⟨c, t, he, hd⟩ := hall p (List.mem_cons_self p _)
    exact ⟨c, t ++ ' ' :: joinSpace (q :: rest), by simp [joinSpace, he], hd⟩

theorem getLast?_dropWhile_concat (p : Char → Bool) (l : List Char) (c : Char)
    (hc : p c = false) : ((l ++ [c]).dropWhile p).getLast? = some c := by
  induction l with
  | nil => simp [List.dropWhile_cons, hc]
  | cons a l ih =>
    by_cases ha : p a
    · simpa [List.dropWhile_cons, ha] using ih
    · rw [List.cons_append, List.dropWhile_cons, if_neg (by simp [ha])]
      rw [show a :: (l ++ [c]) = (a :: l) ++ [c] from rfl, List.getLast?_concat]

theorem stripChars_cons (c : Char) (t : List Char) (hc : pyIsSpace c = false) :
    ∃ t', stripChars (c :: t) = c :: t' := by
  unfold stripChars
  rw [List.dropWhile_cons, if_neg (by simp [hc]), List.reverse_cons]
  have h := getLast?_dropWhile_concat pyIsSpace t.reverse c hc
  have hh : ((t.reverse ++ [c]).dropWhile pyIsSpace).reverse.head? = some c := by
    rw [List.head?_reverse]; exact h
  cases hl : ((t.reverse ++ [c]).dropWhile pyIsSpace).reverse with
  | nil => rw [hl] at hh; simp at hh
  | cons x xs =>
    rw [hl] at hh
    simp only [List.head?_cons, Option.some.injEq] at hh
    exact ⟨xs, by rw [hh]⟩

theorem isDigit_not_space (c : Char) (h : c.isDigit = true) : pyIsSpace c = false := by
  simp only [pyIsSpace, Bool.or_eq_false_iff, decide_eq_false_iff_not]
  refine ⟨⟨⟨⟨⟨?_, ?_⟩, ?_⟩, ?_⟩, ?_⟩, ?_⟩ <;> rintro rfl <;> exact absurd h (by decide)

theorem isDigit_ne_P (c : Char) (h : c.isDigit = true) : c ≠ 'P' := by
  rintro rfl; exact absurd h (by decide)

theorem matchDurationGroups_cons_ne (c : Char) (t : List Char) (h : c ≠ 'P') :
    matchDurationGroups (c :: t) = none := by
  simp [matchDurationGroups, h]

theorem durationParts_eq_nonzero (y mo w d : Nat) :
    durationParts y mo w d = nonzeroUnitParts y mo w d := by
  unfold durationParts nonzeroUnitParts
  simp only [List.filterMap_cons, List.filterMap_nil]
  by_cases hy : y = 0 <;> by_cases hmo : mo = 0 <;> by_cases hw : w = 0 <;>
    by_cases hd : d = 0 <;> simp [hy, hmo, hw, hd]

/-- Claim C10: the duration humanizer is idempotent on every input string —
an output built from nonzero units starts with a digit, so it never
re-matches the duration pattern, and every other input is returned
unchanged. -/
theorem claim_C10 (s : String) :
    humanize_iso_duration (humanize_iso_duration s) = humanize_iso_duration s := by
  cases hm : matchDurationGroups (stripChars s.data) with
  | none =>
    have h : humanize_iso_duration s = s := by simp [humanize_iso_duration, hm]
    rw [h]; exact h
  | some g =>
    obtain ⟨y, mo, w, d⟩ := g
    by_cases hp : (durationParts (y.getD 0) (mo.getD 0) (w.getD 0) (d.getD 0)).isEmpty
    · have h : humanize_iso_duration s = s := by simp [humanize_iso_duration, hm, hp]
      rw [h]; exact h
    · have hstep : humanize_iso_duration s =
          ⟨joinSpace (durationParts (y.getD 0) (mo.getD 0) (w.getD 0) (d.getD 0))⟩ := by
        simp [humanize_iso_duration, hm, hp]
      rw [hstep]
      have hne : durationParts (y.getD 0) (mo.getD 0) (w.getD 0) (d.getD 0) ≠ [] := by
        simpa [List.isEmpty_iff] using hp
      obtain ⟨c, t, hj, hd2⟩ :=
        joinSpace_head _ hne (durationParts_heads (y.getD 0) (mo.getD 0) (w.getD 0) (d.getD 0))
      obtain ⟨t', hstrip⟩ : ∃ t',
          stripChars (joinSpace (durationParts (y.getD 0) (mo.getD 0) (w.getD 0) (d.getD 0))) =
            c :: t' := by
        rw [hj]; exact stripChars_cons c t (isDigit_not_space c hd2)
      have hnone : matchDurationGroups (stripChars (String.data
          ⟨joinSpace (durationParts (y.getD 0) (mo.getD 0) (w.getD 0) (d.getD 0))⟩)) = none := by
        show matchDurationGroups (stripChars
          (joinSpace (durationParts (y.getD 0) (mo.getD 0) (w.getD 0) (d.getD 0)))) = none
        rw [hstrip]
        exact matchDurationGroups_cons_ne c t' (isDigit_ne_P c hd2)
      simp [humanize_iso_duration, hnone]

/-- Counterexample to claim C4: `"P0Y3M"` is in the duration subset with
the years count present (as zero), but the humanizer's output omits the
years unit; the claim-faithful output `"0 г. 3 мес."` differs from the
code's `"3 мес."`. -/
theorem claim_C4_counterexample :
    matchDurationGroups (stripChars "P0Y3M".data) = some (some 0, some 3, none, none) ∧
    humanize_iso_duration "P0Y3M" = "3 мес." ∧
    humanizeC4Spec "P0Y3M" = "0 г. 3 мес." ∧
    humanize_iso_duration "P0Y3M" ≠ humanizeC4Spec "P0Y3M" :=
  ⟨by decide, by decide, by decide, by decide⟩

/-- Claim C4 as amended: for a string matching the duration subset, the
humanizer outputs exactly the units whose count is present *and nonzero*,
in the fixed order years, months, weeks, days, each count suffixed with its
localized abbreviation; when no nonzero unit is present (bare `"P"` or
all-zero counts included), and for every non-matching string, the input is
returned unchanged. -/
theorem claim_C4_amended (value : String) :
    (matchDurationGroups (stripChars value.data) = none →
      humanize_iso_duration value = value) ∧
    (∀ y mo w d, matchDurationGroups (stripChars value.data) = some (y, mo, w, d) →
      (nonzeroUnitParts (y.getD 0) (mo.getD 0) (w.getD 0) (d.getD 0) = [] →
        humanize_iso_duration value = value) ∧
      (nonzeroUnitParts (y.getD 0) (mo.getD 0) (w.getD 0) (d.getD 0) ≠ [] →
        humanize_iso_duration value =
          ⟨joinSpace (nonzeroUnitParts (y.getD 0) (mo.getD 0) (w.getD 0) (d.getD 0))⟩)) := by
  constructor
  · intro h; simp [humanize_iso_duration, h]
  · intro y mo w d h
    constructor <;> intro hp <;>
      simp [humanize_iso_duration, h, List.isEmpty_iff, durationParts_eq_nonzero, hp]

theorem claim_C4_witness : humanize_iso_duration "P1Y2D" = "1 г. 2 дн." := by
  have h := ((claim_C4_amended "P1Y2D").2 (some 1) none none (some 2) (by decide)).2 (by decide)
  rw [h]
  decide

/-! ## Scalar-line rendering (C7) -/

/-- Counterexample to claim C7: for key `"tags"` the non-blank value
`"; ;"` (its strip is `"; ;"`, not empty) produces no output at all —
every `";"`-segment strips to empty, so `render_tags` emits nothing —
contradicting "rendering a non-blank scalar value produces a
`label: value` line". -/
theorem claim_C7_counterexample :
    (stripChars "; ;".data).isEmpty = false ∧
    render_scalar_line "tags" (.str "; ;") = none :=
  ⟨by decide, by decide⟩

/-- Claim C7 as amended: a missing (`None`) or blank-string value produces
no output line; a non-blank value for any key other than `"tags"` produces
a `label: value` line whose label is the localized label when the key is in
the lookup and the raw key otherwise, and whose value is the humanized
value; for key `"tags"`, a non-blank value produces a labelled chip row of
its non-empty stripped segments when at least one exists, and no output
otherwise. -/
theorem claim_C7_amended (key : String) (value : PyScalar) :
    (render_scalar_line key .null = none) ∧
    (∀ s, (stripChars s.data).isEmpty = true → render_scalar_line key (.str s) = none) ∧
    (key ≠ "tags" → value ≠ .null →
      (∀ s, value = .str s → (stripChars s.data).isEmpty = false) →
      render_scalar_line key value =
        some (.scalarLine (label_ru key) (pyStr (humanize_value key value)))) ∧
    ((∀ s, value = .str s → (stripChars s.data).isEmpty = false) → value ≠ .null →
      render_scalar_line "tags" value =
        if (tagParts (pyStr value)).isEmpty then none
        else some (.tagChips (label_ru "tags") (tagParts (pyStr value)))) ∧
    (∀ k l, KEY_LABELS_RU.find? (fun p => p.1 = k) = some l → label_ru k = l.2) ∧
    (∀ k, KEY_LABELS_RU.find? (fun p => p.1 = k) = none → label_ru k = k) := by
  refine ⟨rfl, ?_, ?_, ?_, ?_, ?_⟩
  · intro s hs
    simp [render_scalar_line, hs]
  · intro hk hn hstr
    cases value with
    | null => exact absurd rfl hn
    | str s =>
      have hb := hstr s rfl
      simp [render_scalar_line, hb, hk]
    | int n => simp [render_scalar_line, hk]
    | bool b => simp [render_scalar_line, hk]
  · intro hstr hn
    cases value with
    | null => exact absurd rfl hn
    | str s =>
      have hb := hstr s rfl
      simp [render_scalar_line, render_tags, hb, pyStr]
    | int n => simp [render_scalar_line, render_tags, pyStr]
    | bool b => simp [render_scalar_line, render_tags, pyStr]
  · intro k l h
    unfold label_ru
    rw [h]
    rfl
  · intro k h
    unfold label_ru
    rw [h]
    rfl

theorem claim_C7_witness :
    render_scalar_line "dose" (.str "5 mg") =
      some (.scalarLine (label_ru "dose") (pyStr (humanize_value "dose" (.str "5 mg")))) ∧
    render_scalar_line "tags" (.str "A;B") =
      (if (tagParts (pyStr (.str "A;B"))).isEmpty then none
       else some (.tagChips (label_ru "tags") (tagParts (pyStr (.str "A;B"))))) :=
  ⟨(claim_C7_amended "dose" (.str "5 mg")).2.2.1 (by decide) (by decide)
     (fun s hs => by injection hs with h; rw [← h]; decide),
   (claim_C7_amended "tags" (.str "A;B")).2.2.2.1
     (fun s hs => by injection hs with h; rw [← h]; decide) (by decide)⟩

end StreamlitApp
